import Mathlib

/-!
Shallow embedding of the table-driven-lexer repository.

The pipeline lives in `src/lex.rs` (table-driven scanner plus an operator
trie), `src/old_lexer.rs` (the previous scanner), `src/parse.rs` (CST
builder, lowering, analysis and serialization), `src/kind.rs` and
`src/node.rs` (token kinds and tree data).  Rust strings are modelled as
`List Char`; `Arc` sharing is erased (the data is immutable); the scanner
loops are modelled with an explicit step function plus fuel equal to the
input length (each loop iteration consumes at least one character, which we
prove below).  The `.unwrap()` calls in `lower_to_ast` are modelled by an
`Option` result, `none` standing for the Rust panic.
-/

set_option maxRecDepth 4000

/-- `SyntaxKind` from `src/kind.rs` (the `syntaxkind!` macro invocation).
The last five variants do not appear in `kind.rs` but are referenced by
`build_operator_trie` in `src/lex.rs`; they are included so that the trie
can be embedded. -/
inductive SyntaxKind where
  | Let
  | Ident
  | Colon
  | «Type»
  | Equal
  | StringLiteral
  | Semicolon
  | Whitespace
  | Error
  | Root
  | VarDecl
  | NewLine
  | EqualEqual
  | FatArrow
  | EqualLess
  | ColonEqual
  | DoubleColon
deriving DecidableEq, Repr

/-- `TokenData` from `src/lex.rs`; `Token = Arc<TokenData>` is erased. -/
structure TokenData where
  kind : SyntaxKind
  text : String
deriving DecidableEq, Repr

/-- Rust `char::is_whitespace` (the Unicode `White_Space` property),
decided by code point. -/
def isRustWhitespace (c : Char) : Bool :=
  [0x9, 0xA, 0xB, 0xC, 0xD, 0x20, 0x85, 0xA0, 0x1680,
   0x2000, 0x2001, 0x2002, 0x2003, 0x2004, 0x2005, 0x2006, 0x2007,
   0x2008, 0x2009, 0x200A, 0x2028, 0x2029, 0x202F, 0x205F, 0x3000].contains c.toNat

/-- Rust `char::is_alphabetic`, modelled on the ASCII range (the inputs in
the claims and in the repository are ASCII). -/
def isRustAlphabetic (c : Char) : Bool :=
  c.isAlpha

/-- The continuation test of the identifier loop in `lex_ident_or_keyword`
(`c.is_alphanumeric() || c == '_'`), on the ASCII range. -/
def identChar (c : Char) : Bool :=
  c.isAlphanum || c == '_'

/-- The continuation test of the whitespace loop in `lex_whitespace`
(`c.is_whitespace() && c != '\n'`). -/
def wsChar (c : Char) : Bool :=
  isRustWhitespace c && c != '\n'

/-- A maximal run: the `while let Some(&c) = chars.peek()` / `break` loops
of `src/lex.rs`, returning the consumed run and the remaining input. -/
def spanP (p : Char → Bool) : List Char → List Char × List Char
  | [] => ([], [])
  | c :: cs =>
    if p c then
      ((spanP p cs).1.cons c, (spanP p cs).2)
    else
      ([], c :: cs)

/-- The loop of `lex_string_literal` after the opening quote has been
consumed: returns the collected content, whether a closing quote was found,
and the remaining input. -/
def scanStringBody : List Char → List Char × Bool × List Char
  | [] => ([], false, [])
  | c :: cs =>
    if c = '"' then
      ([], true, cs)
    else
      ((scanStringBody cs).1.cons c, (scanStringBody cs).2.1, (scanStringBody cs).2.2)

/-- `lex_equal` from `src/lex.rs`: consumes one character, emits `=`. -/
def lex_equal (cs : List Char) : Option (TokenData × List Char) :=
  some (⟨SyntaxKind.Equal, "="⟩, cs.drop 1)

/-- `lex_colon` from `src/lex.rs`. -/
def lex_colon (cs : List Char) : Option (TokenData × List Char) :=
  some (⟨SyntaxKind.Colon, ":"⟩, cs.drop 1)

/-- `lex_semicolon` from `src/lex.rs`. -/
def lex_semicolon (cs : List Char) : Option (TokenData × List Char) :=
  some (⟨SyntaxKind.Semicolon, ";"⟩, cs.drop 1)

/-- `lex_newline` from `src/lex.rs`. -/
def lex_newline (cs : List Char) : Option (TokenData × List Char) :=
  some (⟨SyntaxKind.NewLine, "\n"⟩, cs.drop 1)

/-- `lex_whitespace` from `src/lex.rs`: fails unless the next character is
horizontal whitespace, otherwise consumes the maximal run. -/
def lex_whitespace : List Char → Option (TokenData × List Char)
  | [] => none
  | c :: cs =>
    if wsChar c then
      some (⟨SyntaxKind.Whitespace, (spanP wsChar (c :: cs)).1.asString⟩,
            (spanP wsChar (c :: cs)).2)
    else
      none

/-- The keyword reclassification at the end of `lex_ident_or_keyword`. -/
def classifyIdent (text : String) : SyntaxKind :=
  match text with
  | "let" => SyntaxKind.Let
  | "string" => SyntaxKind.«Type»
  | _ => SyntaxKind.Ident

/-- `lex_ident_or_keyword` from `src/lex.rs`: fails unless the next
character is alphabetic, otherwise consumes the maximal alphanumeric or
underscore run and reclassifies it. -/
def lex_ident_or_keyword : List Char → Option (TokenData × List Char)
  | [] => none
  | c :: cs =>
    if isRustAlphabetic c then
      some (⟨classifyIdent (spanP identChar (c :: cs)).1.asString,
             (spanP identChar (c :: cs)).1.asString⟩,
            (spanP identChar (c :: cs)).2)
    else
      none

/-- `lex_string_literal` from `src/lex.rs`: fails unless the next character
is `"`; otherwise collects content up to a closing quote (kind
`StringLiteral`) or to end of input (kind `Error`).  Note the delimiting
quotes are not part of the token text. -/
def lex_string_literal : List Char → Option (TokenData × List Char)
  | [] => none
  | c :: cs =>
    if c = '"' then
      some (⟨if (scanStringBody cs).2.1 then SyntaxKind.StringLiteral else SyntaxKind.Error,
             (scanStringBody cs).1.asString⟩,
            (scanStringBody cs).2.2)
    else
      none

/-- One iteration of the `while let Some(&ch) = chars.peek()` loop of
`table_lex`: the punctuation table (`=`, `:`, `;`, `\n`), then whitespace,
identifier/keyword, string literal and the one-character `Error` fallback.
`none` only on empty input (the loop exit). -/
def lexStep : List Char → Option (TokenData × List Char)
  | [] => none
  | c :: cs =>
    if c = '=' then lex_equal (c :: cs)
    else if c = ':' then lex_colon (c :: cs)
    else if c = ';' then lex_semicolon (c :: cs)
    else if c = '\n' then lex_newline (c :: cs)
    else
      match lex_whitespace (c :: cs) with
      | some r => some r
      | none =>
        match lex_ident_or_keyword (c :: cs) with
        | some r => some r
        | none =>
          match lex_string_literal (c :: cs) with
          | some r => some r
          | none => some (⟨SyntaxKind.Error, String.mk [c]⟩, cs)

/-- The `table_lex` loop, with fuel; each iteration consumes at least one
character, so fuel `source.length` is always enough. -/
def table_lex_go : Nat → List Char → List TokenData
  | 0, _ => []
  | Nat.succ n, cs =>
    match lexStep cs with
    | some (t, rest) => t :: table_lex_go n rest
    | none => []

/-- `table_lex` from `src/lex.rs`. -/
def table_lex (source : List Char) : List TokenData :=
  table_lex_go source.length source

/-- One iteration of the `match ch` loop of `lex` in `src/old_lexer.rs`.
Match arms in source order: whitespace (any, text hard-coded to a single
space), `:`, `\n` (unreachable, since `\n` is whitespace), `=`, `;`,
string literal (always kind `StringLiteral`, even unterminated),
identifier/keyword, fallback `Error`. -/
def lexStepOld : List Char → Option (TokenData × List Char)
  | [] => none
  | c :: cs =>
    if isRustWhitespace c then some (⟨SyntaxKind.Whitespace, " "⟩, cs)
    else if c = ':' then some (⟨SyntaxKind.Colon, ":"⟩, cs)
    else if c = '\n' then some (⟨SyntaxKind.NewLine, "\n"⟩, cs)
    else if c = '=' then some (⟨SyntaxKind.Equal, "="⟩, cs)
    else if c = ';' then some (⟨SyntaxKind.Semicolon, ";"⟩, cs)
    else if c = '"' then
      some (⟨SyntaxKind.StringLiteral, (scanStringBody cs).1.asString⟩,
            (scanStringBody cs).2.2)
    else if isRustAlphabetic c then
      some (⟨classifyIdent (spanP identChar (c :: cs)).1.asString,
             (spanP identChar (c :: cs)).1.asString⟩,
            (spanP identChar (c :: cs)).2)
    else some (⟨SyntaxKind.Error, String.mk [c]⟩, cs)

/-- The `lex` loop of `src/old_lexer.rs`, with fuel. -/
def lex_go : Nat → List Char → List TokenData
  | 0, _ => []
  | Nat.succ n, cs =>
    match lexStepOld cs with
    | some (t, rest) => t :: lex_go n rest
    | none => []

/-- `lex` from `src/old_lexer.rs` (the old scanner). -/
def lex (source : List Char) : List TokenData :=
  lex_go source.length source

/-! ## The operator trie (`src/lex.rs`, lower half) -/

/-- `TrieNode` from `src/lex.rs`; the `HashMap<char, TrieNode>` of children
is modelled as an association list with distinct keys (lookup is by key, so
the map's iteration order is irrelevant). -/
inductive TrieNode where
  | mk (kind : Option SyntaxKind) (children : List (Char × TrieNode))

/-- The `kind` field of a `TrieNode`. -/
def TrieNode.kind : TrieNode → Option SyntaxKind
  | .mk k _ => k

/-- The `children` field of a `TrieNode`. -/
def TrieNode.children : TrieNode → List (Char × TrieNode)
  | .mk _ ch => ch

/-- `HashMap::get` on the children map. -/
def trieGet (children : List (Char × TrieNode)) (c : Char) : Option TrieNode :=
  (children.find? (fun p => p.1 == c)).map (·.2)

/-- Replacing the entry for key `c` (which is present) by `v`, as the
in-place mutation through `entry(ch).or_insert_with` does. -/
def trieSet (children : List (Char × TrieNode)) (c : Char) (v : TrieNode) :
    List (Char × TrieNode) :=
  children.map (fun p => if p.1 == c then (c, v) else p)

/-- `TrieNode::insert` from `src/lex.rs`: walk the sequence, creating
missing children, and mark the final node with `kind`. -/
def TrieNode.insert : TrieNode → List Char → SyntaxKind → TrieNode
  | .mk _ ch, [], kind => .mk (some kind) ch
  | .mk k ch, c :: rest, kind =>
    match trieGet ch c with
    | some sub => .mk k (trieSet ch c (sub.insert rest kind))
    | none => .mk k (ch ++ [(c, (TrieNode.mk none []).insert rest kind)])

/-- `build_operator_trie` from `src/lex.rs`. -/
def build_operator_trie : TrieNode :=
  (((((((((TrieNode.mk none []).insert
    "=".toList SyntaxKind.Equal).insert
    "==".toList SyntaxKind.EqualEqual).insert
    "=>".toList SyntaxKind.FatArrow).insert
    "=<".toList SyntaxKind.EqualLess).insert
    ":=".toList SyntaxKind.ColonEqual).insert
    ":".toList SyntaxKind.Colon).insert
    "::".toList SyntaxKind.DoubleColon).insert
    ";".toList SyntaxKind.Semicolon).insert
    "\n".toList SyntaxKind.NewLine

/-- The walk loop of `lex_operator`: follows trie edges on a lookahead
clone of the iterator, remembering the most recent node that carried a
kind together with the text consumed up to it. -/
def lexOperatorGo : TrieNode → List Char → List Char →
    Option (SyntaxKind × List Char) → Option (SyntaxKind × List Char)
  | _, _, [], matched => matched
  | node, temp, c :: rest, matched =>
    match trieGet node.children c with
    | some next =>
      match next.kind with
      | some k => lexOperatorGo next (temp ++ [c]) rest (some (k, temp ++ [c]))
      | none => lexOperatorGo next (temp ++ [c]) rest matched
    | none => matched

/-- `lex_operator` from `src/lex.rs`: longest-match lookup in the trie;
consumes exactly the matched text (nothing when there is no match) and
returns the matched token. -/
def lex_operator (cs : List Char) (trie : TrieNode) :
    Option TokenData × List Char :=
  match lexOperatorGo trie [] cs none with
  | some (k, text) => (some ⟨k, text.asString⟩, cs.drop text.length)
  | none => (none, cs)

/-! ## CST data (`src/node.rs`) -/

mutual

/-- `SyntaxElement` from `src/node.rs` (`Arc` erased). -/
inductive SyntaxElement where
  | Token (t : TokenData)
  | Node (n : SyntaxNodeData)

/-- `SyntaxNodeData` from `src/node.rs`. -/
inductive SyntaxNodeData where
  | mk (kind : SyntaxKind) (children : List SyntaxElement)

end

/-- The `kind` field / `kind()` accessor of `SyntaxNodeData`. -/
def SyntaxNodeData.kind : SyntaxNodeData → SyntaxKind
  | .mk k _ => k

/-- The `children` field of `SyntaxNodeData`. -/
def SyntaxNodeData.children : SyntaxNodeData → List SyntaxElement
  | .mk _ ch => ch

/-- `SyntaxNodeData::tokens` from `src/node.rs`: the direct token
children, in order. -/
def SyntaxNodeData.tokens (n : SyntaxNodeData) : List TokenData :=
  n.children.filterMap fun el =>
    match el with
    | .Token t => some t
    | .Node _ => none

/-- `SyntaxNodeData::child_nodes` from `src/node.rs`: the direct node
children, in order. -/
def SyntaxNodeData.child_nodes (n : SyntaxNodeData) : List SyntaxNodeData :=
  n.children.filterMap fun el =>
    match el with
    | .Token _ => none
    | .Node m => some m

/-! ## Tree builder (`src/parse.rs`) -/

/-- One `if let Some(tok) = tokens.get(i) { if tok.kind == k { push; i += 1 } }`
step of `parse_tokens_to_cst`: consume the next token iff it has the
expected kind. -/
def takeKind (k : SyntaxKind) : List TokenData → Option TokenData × List TokenData
  | [] => (none, [])
  | t :: ts => if t.kind = k then (some t, ts) else (none, t :: ts)

/-- The body of one `while` iteration of `parse_tokens_to_cst`, after the
`let` token has been consumed: try to attach, in order, an identifier, a
colon, a type, an equals, a string literal and a semicolon.  Returns the
children of the new `VarDecl` node and the remaining tokens. -/
def parseVarDecl (letTok : TokenData) (ts : List TokenData) :
    List SyntaxElement × List TokenData :=
  let r1 := takeKind SyntaxKind.Ident ts
  let r2 := takeKind SyntaxKind.Colon r1.2
  let r3 := takeKind SyntaxKind.«Type» r2.2
  let r4 := takeKind SyntaxKind.Equal r3.2
  let r5 := takeKind SyntaxKind.StringLiteral r4.2
  let r6 := takeKind SyntaxKind.Semicolon r5.2
  (SyntaxElement.Token letTok ::
     ([r1.1, r2.1, r3.1, r4.1, r5.1, r6.1].filterMap
        (fun o => o.map SyntaxElement.Token)),
   r6.2)

/-- The `while i < tokens.len()` loop of `parse_tokens_to_cst`, with fuel;
each iteration consumes the `let` token, so fuel `tokens.length` suffices.
The loop breaks as soon as the cursor token is not `let`, leaving any
trailing tokens unattached. -/
def parse_go : Nat → List TokenData → List SyntaxElement
  | 0, _ => []
  | Nat.succ n, ts =>
    match ts with
    | [] => []
    | t :: rest =>
      if t.kind = SyntaxKind.Let then
        SyntaxElement.Node (SyntaxNodeData.mk SyntaxKind.VarDecl (parseVarDecl t rest).1)
          :: parse_go n (parseVarDecl t rest).2
      else []

/-- `parse_tokens_to_cst` from `src/parse.rs`. -/
def parse_tokens_to_cst (tokens : List TokenData) : SyntaxNodeData :=
  SyntaxNodeData.mk SyntaxKind.Root (parse_go tokens.length tokens)

/-! ## Lowering, analysis and serialization (`src/parse.rs`) -/

/-- `VarDecl` (the AST record) from `src/parse.rs`. -/
structure VarDecl where
  name : String
  ty : String
  value : String
deriving DecidableEq, Repr

/-- The `for node in root.child_nodes()` loop of `lower_to_ast`.  The three
`find` calls are each followed by `.unwrap()` in the source; a failing
`unwrap` panics and aborts the whole lowering, which is modelled by the
result `none`. -/
def lower_go : List SyntaxNodeData → Option (List VarDecl)
  | [] => some []
  | node :: rest =>
    if node.kind ≠ SyntaxKind.VarDecl then lower_go rest
    else
      match (node.tokens.find? (fun t => t.kind == SyntaxKind.Ident)),
            (node.tokens.find? (fun t => t.kind == SyntaxKind.«Type»)),
            (node.tokens.find? (fun t => t.kind == SyntaxKind.StringLiteral)) with
      | some n, some t, some v =>
        (lower_go rest).map (fun ds => ⟨n.text, t.text, v.text⟩ :: ds)
      | _, _, _ => none

/-- `lower_to_ast` from `src/parse.rs`; `none` models the `.unwrap()` panic. -/
def lower_to_ast (root : SyntaxNodeData) : Option (List VarDecl) :=
  lower_go root.child_nodes

/-- `analyze` from `src/parse.rs`: the `println!` diagnostics, collected as
a list of messages (the surrounding single-quote characters of the Rust
format strings are left out of the model). -/
def analyze (decls : List VarDecl) : List String :=
  decls.flatMap fun decl =>
    (if decl.ty ≠ "string" then ["Error: Unsupported type " ++ decl.ty] else []) ++
    (if decl.value = "" then ["Warning: Empty string for " ++ decl.name] else [])

/-- The per-declaration line `format!("  \"{}\": \"{}\",\n", d.name, d.value)`
of `compile`. -/
def entryLine (d : VarDecl) : String :=
  "  \"" ++ d.name ++ "\": \"" ++ d.value ++ "\",\n"

/-- `compile` from `src/parse.rs`: `{`, one comma-terminated line per
declaration, `}`. -/
def compile (decls : List VarDecl) : String :=
  (decls.foldl (fun out d => out ++ entryLine d) "\x7b\n") ++ "\x7d"

/-! ## Observation helpers used by the properties -/

/-- Concatenation of the `text` fields of a token stream, in order. -/
def concatTexts : List TokenData → String
  | [] => ""
  | t :: ts => t.text ++ concatTexts ts

/-- The input segment consumed by each iteration of the `table_lex` loop
(same loop structure as `table_lex_go`): token number `i` of `table_lex`
is produced from segment number `i`. -/
def table_lex_segs_go : Nat → List Char → List (List Char)
  | 0, _ => []
  | Nat.succ n, cs =>
    match lexStep cs with
    | some (_, rest) => cs.take (cs.length - rest.length) :: table_lex_segs_go n rest
    | none => []

/-- The consumed-segment decomposition of the whole input. -/
def table_lex_segs (source : List Char) : List (List Char) :=
  table_lex_segs_go source.length source

/-- Concatenation of the per-declaration output lines, in order. -/
def entryLines : List VarDecl → String
  | [] => ""
  | d :: ds => entryLine d ++ entryLines ds

/-! ## Helper lemmas -/

theorem string_data_append (s t : String) : (s ++ t).data = s.data ++ t.data := by
  cases s
  cases t
  rfl

theorem asString_append (a b : List Char) :
    (a ++ b).asString = a.asString ++ b.asString := by
  apply String.ext
  rw [string_data_append]
  rfl

theorem spanP_append (p : Char → Bool) : ∀ l : List Char,
    (spanP p l).1 ++ (spanP p l).2 = l
  | [] => rfl
  | c :: cs => by
    simp only [spanP]
    split
    · simpa using spanP_append p cs
    · rfl

theorem spanP_fst_mem (p : Char → Bool) :
    ∀ l : List Char, ∀ x ∈ (spanP p l).1, p x = true
  | [], x, hx => by simp [spanP] at hx
  | c :: cs, x, hx => by
    simp only [spanP] at hx
    split at hx
    · rcases List.mem_cons.1 hx with h | h
      · subst h; assumption
      · exact spanP_fst_mem p cs x h
    · simp at hx

theorem spanP_cons_pos {p : Char → Bool} {c : Char} (cs : List Char)
    (h : p c = true) :
    spanP p (c :: cs) = (c :: (spanP p cs).1, (spanP p cs).2) := by
  simp [spanP, h]

theorem scanStringBody_no_quote : ∀ cs : List Char, '"' ∉ cs →
    scanStringBody cs = (cs, false, [])
  | [], _ => rfl
  | c :: cs, h => by
    have hc : ¬(c = '"') := fun hc => h (hc ▸ List.mem_cons_self c cs)
    have ih := scanStringBody_no_quote cs (fun hm => h (List.mem_cons_of_mem c hm))
    simp [scanStringBody, hc, ih]

theorem scanStringBody_closed : ∀ (v r : List Char), '"' ∉ v →
    scanStringBody (v ++ '"' :: r) = (v, true, r)
  | [], r, _ => by simp [scanStringBody]
  | c :: v, r, h => by
    have hc : ¬(c = '"') := fun hc => h (hc ▸ List.mem_cons_self c v)
    have ih := scanStringBody_closed v r (fun hm => h (List.mem_cons_of_mem c hm))
    simp [scanStringBody, hc, ih]

theorem scanStringBody_sound : ∀ cs : List Char,
    ((scanStringBody cs).2.1 = true →
      cs = (scanStringBody cs).1 ++ '"' :: (scanStringBody cs).2.2)
    ∧ ((scanStringBody cs).2.1 = false →
      cs = (scanStringBody cs).1 ∧ (scanStringBody cs).2.2 = [])
  | [] => by simp [scanStringBody]
  | c :: cs => by
    rcases scanStringBody_sound cs with ⟨h1, h2⟩
    by_cases hc : c = '"'
    · subst hc
      simp [scanStringBody]
    · constructor
      · intro ht
        simp only [scanStringBody, if_neg hc] at ht ⊢
        have := h1 ht
        simp only [List.cons_append]
        exact congrArg (c :: ·) this
      · intro hf
        simp only [scanStringBody, if_neg hc] at hf ⊢
        rcases h2 hf with ⟨hcs, hr⟩
        exact ⟨congrArg (c :: ·) hcs, hr⟩

theorem identChar_of_alpha {c : Char} (h : isRustAlphabetic c = true) :
    identChar c = true := by
  simp only [isRustAlphabetic] at h
  simp [identChar, Char.isAlphanum, h]

/-- Master case analysis for one scanner iteration: on nonempty input the
step always succeeds, consumes a nonempty segment of the input, and (except
in the string-literal branch, which strips the quotes) the token text is
exactly the consumed segment. -/
theorem lexStep_cases (c : Char) (cs : List Char) :
    ∃ t rest pre, lexStep (c :: cs) = some (t, rest) ∧ pre ≠ [] ∧
      c :: cs = pre ++ rest ∧ ((t.text = pre.asString ∧ '"' ∉ pre) ∨ c = '"') := by
  by_cases hc1 : c = '='
  · subst hc1
    exact ⟨_, _, ['='], rfl, by simp, rfl, Or.inl ⟨rfl, by decide⟩⟩
  by_cases hc2 : c = ':'
  · subst hc2
    exact ⟨_, _, [':'], rfl, by simp, rfl, Or.inl ⟨rfl, by decide⟩⟩
  by_cases hc3 : c = ';'
  · subst hc3
    exact ⟨_, _, [';'], rfl, by simp, rfl, Or.inl ⟨rfl, by decide⟩⟩
  by_cases hc4 : c = '\n'
  · subst hc4
    exact ⟨_, _, ['\n'], rfl, by simp, rfl, Or.inl ⟨rfl, by decide⟩⟩
  by_cases hw : wsChar c
  · refine ⟨⟨SyntaxKind.Whitespace, (spanP wsChar (c :: cs)).1.asString⟩,
      (spanP wsChar (c :: cs)).2, (spanP wsChar (c :: cs)).1, ?_, ?_, ?_,
      Or.inl ⟨rfl, fun hm => by
        have := spanP_fst_mem wsChar (c :: cs) '"' hm
        simp [wsChar, isRustWhitespace] at this⟩⟩
    · simp [lexStep, hc1, hc2, hc3, hc4, lex_whitespace, hw]
    · rw [spanP_cons_pos cs hw]; simp
    · exact (spanP_append wsChar (c :: cs)).symm
  by_cases ha : isRustAlphabetic c
  · refine ⟨⟨classifyIdent (spanP identChar (c :: cs)).1.asString,
      (spanP identChar (c :: cs)).1.asString⟩,
      (spanP identChar (c :: cs)).2, (spanP identChar (c :: cs)).1, ?_, ?_, ?_,
      Or.inl ⟨rfl, fun hm => by
        have := spanP_fst_mem identChar (c :: cs) '"' hm
        simp [identChar, Char.isAlphanum] at this⟩⟩
    · simp [lexStep, hc1, hc2, hc3, hc4, lex_whitespace, hw, lex_ident_or_keyword, ha]
    · rw [spanP_cons_pos cs (identChar_of_alpha ha)]; simp
    · exact (spanP_append identChar (c :: cs)).symm
  by_cases hq : c = '"'
  · subst hq
    rcases hflag : (scanStringBody cs).2.1 with _ | _
    · rcases (scanStringBody_sound cs).2 hflag with ⟨hcs, hrest⟩
      refine ⟨⟨SyntaxKind.Error, (scanStringBody cs).1.asString⟩,
        (scanStringBody cs).2.2, '"' :: (scanStringBody cs).1, ?_, by simp, ?_, Or.inr rfl⟩
      · simp [lexStep, hc1, hc2, hc3, hc4, lex_whitespace, hw,
          lex_ident_or_keyword, ha, lex_string_literal, hflag]
      · rw [hrest]
        conv_lhs => rw [hcs]
        simp
    · have hcs := (scanStringBody_sound cs).1 hflag
      refine ⟨⟨SyntaxKind.StringLiteral, (scanStringBody cs).1.asString⟩,
        (scanStringBody cs).2.2, '"' :: ((scanStringBody cs).1 ++ ['"']), ?_, by simp, ?_,
        Or.inr rfl⟩
      · simp [lexStep, hc1, hc2, hc3, hc4, lex_whitespace, hw,
          lex_ident_or_keyword, ha, lex_string_literal, hflag]
      · conv_lhs => rw [hcs]
        simp
  · refine ⟨⟨SyntaxKind.Error, String.mk [c]⟩, cs, [c], ?_, by simp, rfl,
      Or.inl ⟨rfl, by simp [hq]; exact fun h => hq h.symm⟩⟩
    simp [lexStep, hc1, hc2, hc3, hc4, lex_whitespace, hw,
      lex_ident_or_keyword, ha, lex_string_literal, hq]

theorem lexStep_split {cs : List Char} {t : TokenData} {rest : List Char}
    (h : lexStep cs = some (t, rest)) :
    ∃ pre, pre ≠ [] ∧ cs = pre ++ rest := by
  match cs with
  | [] => simp [lexStep] at h
  | c :: cs =>
    rcases lexStep_cases c cs with ⟨t', rest', pre, hstep, hpre, happ, _⟩
    rw [h] at hstep
    rcases Option.some.inj hstep with h'
    rcases Prod.mk.injEq .. ▸ h' with ⟨-, hrest⟩
    exact ⟨pre, hpre, hrest ▸ happ⟩

theorem lexStep_progress {cs : List Char} {t : TokenData} {rest : List Char}
    (h : lexStep cs = some (t, rest)) : rest.length < cs.length := by
  rcases lexStep_split h with ⟨pre, hpre, happ⟩
  rw [happ, List.length_append]
  have : 0 < pre.length := List.length_pos.2 hpre
  omega

/-- The scanned string-literal body never contains a quote. -/
theorem scanStringBody_fst_no_quote : ∀ cs : List Char, '"' ∉ (scanStringBody cs).1
  | [] => by simp [scanStringBody]
  | c :: cs => by
    by_cases hc : c = '"'
    · subst hc; simp [scanStringBody]
    · simp only [scanStringBody, if_neg hc]
      intro hm
      rcases List.mem_cons.1 hm with h | h
      · exact hc h.symm
      · exact scanStringBody_fst_no_quote cs h

/-- Splitting a list at the first occurrence of `'"'`. -/
theorem mem_split_first : ∀ l : List Char, '"' ∈ l →
    ∃ v r, l = v ++ '"' :: r ∧ '"' ∉ v
  | [], h => absurd h (List.not_mem_nil _)
  | c :: cs, h => by
    by_cases hc : c = '"'
    · exact ⟨[], cs, by rw [hc]; rfl, by simp⟩
    · have hcs : '"' ∈ cs := by
        rcases List.mem_cons.1 h with h' | h'
        · exact absurd h'.symm hc
        · exact h'
      rcases mem_split_first cs hcs with ⟨v, r, hvr, hv⟩
      refine ⟨c :: v, r, by rw [hvr]; rfl, ?_⟩
      intro hm
      rcases List.mem_cons.1 hm with h' | h'
      · exact hc h'.symm
      · exact hv h'

/-- Unfolding one loop iteration with sufficient fuel. -/
theorem table_lex_go_cons {n : Nat} {cs rest : List Char} {t : TokenData}
    (h : lexStep cs = some (t, rest)) :
    table_lex_go (n + 1) cs = t :: table_lex_go n rest := by
  simp [table_lex_go, h]

/-- Concatenating the token texts of the table-driven scan reproduces the
input whenever the input contains no quote character. -/
theorem concatTexts_go (n : Nat) : ∀ cs : List Char, cs.length ≤ n → '"' ∉ cs →
    concatTexts (table_lex_go n cs) = cs.asString := by
  induction n with
  | zero =>
    intro cs hlen _
    rw [List.length_eq_zero.1 (Nat.le_zero.1 hlen)]
    rfl
  | succ n ih =>
    intro cs hlen hq
    match cs with
    | [] => rfl
    | c :: cs =>
      rcases lexStep_cases c cs with ⟨t, rest, pre, hstep, hpre, happ, htext⟩
      rcases htext with ⟨htext, -⟩ | hc
      · rw [table_lex_go_cons hstep]
        have hrest_len : rest.length ≤ n := by
          have hli := congrArg List.length happ
          simp only [List.length_cons, List.length_append] at hli
          have hpl : 0 < pre.length := List.length_pos.2 hpre
          have hlen' : cs.length + 1 ≤ n + 1 := by simpa using hlen
          omega
        have hrest_q : '"' ∉ rest := fun hm =>
          hq (happ ▸ List.mem_append_right pre hm)
        show t.text ++ concatTexts (table_lex_go n rest) = (c :: cs).asString
        rw [ih rest hrest_len hrest_q, htext, ← asString_append, ← happ]
      · exact absurd (hc ▸ List.mem_cons_self c cs) hq

theorem take_consumed {pre rest : List Char} :
    (pre ++ rest).take ((pre ++ rest).length - rest.length) = pre := by
  rw [List.length_append, Nat.add_sub_cancel, List.take_left]

/-- The consumed segments of the table-driven scan partition the input:
they concatenate back to it, there is one nonempty segment per token. -/
theorem table_lex_segs_go_spec (n : Nat) : ∀ cs : List Char, cs.length ≤ n →
    (table_lex_segs_go n cs).flatten = cs ∧
    (table_lex_segs_go n cs).length = (table_lex_go n cs).length ∧
    ∀ seg ∈ table_lex_segs_go n cs, seg ≠ [] := by
  induction n with
  | zero =>
    intro cs hlen
    rw [List.length_eq_zero.1 (Nat.le_zero.1 hlen)]
    exact ⟨rfl, rfl, by simp [table_lex_segs_go]⟩
  | succ n ih =>
    intro cs hlen
    match cs with
    | [] => exact ⟨rfl, rfl, by simp [table_lex_segs_go, lexStep]⟩
    | c :: cs =>
      rcases lexStep_cases c cs with ⟨t, rest, pre, hstep, hpre, happ, -⟩
      have hrest_len : rest.length ≤ n := by
        have hli := congrArg List.length happ
        simp only [List.length_cons, List.length_append] at hli
        have hpl : 0 < pre.length := List.length_pos.2 hpre
        have hlen' : cs.length + 1 ≤ n + 1 := by simpa using hlen
        omega
      have hsegs : table_lex_segs_go (n + 1) (c :: cs) =
          pre :: table_lex_segs_go n rest := by
        simp only [table_lex_segs_go, hstep]
        rw [happ, take_consumed]
      rcases ih rest hrest_len with ⟨ihj, ihl, ihn⟩
      refine ⟨?_, ?_, ?_⟩
      · rw [hsegs]
        simp only [List.flatten_cons, ihj]
        exact happ.symm
      · rw [hsegs, table_lex_go_cons hstep]
        simp [ihl]
      · rw [hsegs]
        intro seg hseg
        rcases List.mem_cons.1 hseg with h | h
        · exact h ▸ hpre
        · exact ihn seg h

theorem lex_go_cons {n : Nat} {cs rest : List Char} {t : TokenData}
    (h : lexStepOld cs = some (t, rest)) :
    lex_go (n + 1) cs = t :: lex_go n rest := by
  simp [lex_go, h]

/-- Outside whitespace and string literals the two scanners take identical
steps. -/
theorem lexStepOld_eq_lexStep {c : Char} (cs : List Char)
    (hw : isRustWhitespace c = false) (hq : ¬c = '"') :
    lexStepOld (c :: cs) = lexStep (c :: cs) := by
  by_cases hc1 : c = '='
  · subst hc1; rfl
  by_cases hc2 : c = ':'
  · subst hc2; rfl
  by_cases hc3 : c = ';'
  · subst hc3; rfl
  have hc4 : ¬c = '\n' := fun h => by subst h; simp [isRustWhitespace] at hw
  by_cases ha : isRustAlphabetic c
  · simp [lexStepOld, lexStep, hw, hc1, hc2, hc3, hc4, hq, ha,
      lex_whitespace, wsChar, lex_ident_or_keyword]
  · simp [lexStepOld, lexStep, hw, hc1, hc2, hc3, hc4, hq, ha,
      lex_whitespace, wsChar, lex_ident_or_keyword, lex_string_literal]

/-- On inputs free of whitespace in which every string literal is closed
(even number of quotes), the old scanner and the table-driven scanner agree
step by step. -/
theorem agree_go (n : Nat) : ∀ cs : List Char, cs.length ≤ n →
    (∀ x ∈ cs, isRustWhitespace x = false) → cs.count '"' % 2 = 0 →
    lex_go n cs = table_lex_go n cs := by
  induction n with
  | zero => intro cs _ _ _; rfl
  | succ n ih =>
    intro cs hlen hws hcount
    match cs with
    | [] => rfl
    | c :: cs =>
      have hw : isRustWhitespace c = false := hws c (List.mem_cons_self c cs)
      have hlen' : cs.length + 1 ≤ n + 1 := by simpa using hlen
      by_cases hq : c = '"'
      · subst hq
        have hodd : cs.count '"' % 2 = 1 := by
          rw [List.count_cons_self] at hcount
          omega
        have hmem : '"' ∈ cs :=
          List.count_pos_iff.1 (show 0 < cs.count '"' by omega)
        rcases mem_split_first cs hmem with ⟨v, r, hvr, hv⟩
        have hsb : scanStringBody cs = (v, true, r) := by
          rw [hvr]; exact scanStringBody_closed v r hv
        have hold : lexStepOld ('"' :: cs) =
            some (⟨SyntaxKind.StringLiteral, (scanStringBody cs).1.asString⟩,
              (scanStringBody cs).2.2) := rfl
        have hnew : lexStep ('"' :: cs) =
            some (⟨if (scanStringBody cs).2.1 then SyntaxKind.StringLiteral
                   else SyntaxKind.Error, (scanStringBody cs).1.asString⟩,
              (scanStringBody cs).2.2) := rfl
        rw [hsb] at hold hnew
        simp only at hold hnew
        rw [lex_go_cons hold, table_lex_go_cons hnew]
        have hvlen := congrArg List.length hvr
        simp only [List.length_cons, List.length_append] at hvlen
        have hvcount := congrArg (List.count '"') hvr
        rw [List.count_append, List.count_cons_self,
          List.count_eq_zero.2 hv] at hvcount
        refine congrArg _ (ih r ?_ ?_ ?_)
        · omega
        · intro x hx
          exact hws x (List.mem_cons_of_mem _ (hvr ▸ List.mem_append_right v
            (List.mem_cons_of_mem _ hx)))
        · omega
      · rcases lexStep_cases c cs with ⟨t, rest, pre, hstep, hpre, happ, htext⟩
        rcases htext with ⟨-, hpq⟩ | hc
        · have hold : lexStepOld (c :: cs) = some (t, rest) :=
            (lexStepOld_eq_lexStep cs hw hq).trans hstep
          rw [lex_go_cons hold, table_lex_go_cons hstep]
          have hli := congrArg List.length happ
          simp only [List.length_cons, List.length_append] at hli
          have hpl : 0 < pre.length := List.length_pos.2 hpre
          have hcnt := congrArg (List.count '"') happ
          rw [List.count_append] at hcnt
          have hpre0 : pre.count '"' = 0 := List.count_eq_zero.2 hpq
          refine congrArg _ (ih rest ?_ ?_ ?_)
          · omega
          · intro x hx
            exact hws x (happ ▸ List.mem_append_right pre hx)
          · rw [List.count_cons_of_ne (fun h => hq h.symm)] at hcnt hcount
            omega
        · exact absurd hc hq

theorem string_append_assoc (a b c : String) : a ++ b ++ c = a ++ (b ++ c) := by
  apply String.ext
  simp only [string_data_append, List.append_assoc]

theorem string_append_empty (s : String) : s ++ "" = s := by
  apply String.ext
  rw [string_data_append]
  simp

theorem compile_foldl : ∀ (decls : List VarDecl) (init : String),
    decls.foldl (fun out d => out ++ entryLine d) init = init ++ entryLines decls
  | [], init => (string_append_empty init).symm
  | d :: ds, init => by
    show List.foldl _ (init ++ entryLine d) ds = init ++ (entryLine d ++ entryLines ds)
    rw [compile_foldl ds (init ++ entryLine d), string_append_assoc]

/-- `compile` in closed form: brace line, the entry lines in order, brace. -/
theorem compile_eq (decls : List VarDecl) :
    compile decls = "\x7b\n" ++ entryLines decls ++ "\x7d" := by
  show (decls.foldl (fun out d => out ++ entryLine d) "\x7b\n") ++ "\x7d" = _
  rw [compile_foldl decls "\x7b\n"]

theorem entryLines_append : ∀ (l₁ l₂ : List VarDecl),
    entryLines (l₁ ++ l₂) = entryLines l₁ ++ entryLines l₂
  | [], l₂ => by
    show entryLines l₂ = "" ++ entryLines l₂
    apply String.ext
    rw [string_data_append]
    rfl
  | d :: l₁, l₂ => by
    show entryLine d ++ entryLines (l₁ ++ l₂) = entryLine d ++ entryLines l₁ ++ entryLines l₂
    rw [entryLines_append l₁ l₂, string_append_assoc]

theorem takeKind_fst {k : SyntaxKind} : ∀ {ts : List TokenData} {t : TokenData},
    (takeKind k ts).1 = some t → t.kind = k := by
  intro ts t h
  match ts with
  | [] => simp [takeKind] at h
  | t' :: ts =>
    simp only [takeKind] at h
    split at h
    · cases Option.some.inj h
      assumption
    · simp at h

theorem takeKind_snd_length (k : SyntaxKind) : ∀ ts : List TokenData,
    (takeKind k ts).2.length ≤ ts.length
  | [] => Nat.le_refl _
  | t :: ts => by
    simp only [takeKind]
    split
    · simp
    · simp

/-- Tokens collected from a sequence of optional matches form, kind-wise, a
sublist of the expected kind sequence. -/
theorem filterMap_kinds_sublist :
    ∀ {opts : List (Option TokenData)} {ks : List SyntaxKind},
    List.Forall₂ (fun o k => ∀ t, o = some t → t.kind = k) opts ks →
    ((opts.filterMap id).map TokenData.kind).Sublist ks := by
  intro opts ks h
  induction h with
  | nil => simp
  | @cons o k opts ks hok _ ih =>
    match o with
    | none => exact ih.cons k
    | some t =>
      have hk := hok t rfl
      have hfm : List.filterMap id (some t :: opts) = t :: List.filterMap id opts := rfl
      rw [hfm, List.map_cons, hk]
      exact ih.cons₂ k

theorem tokens_of_optTokens : ∀ opts : List (Option TokenData),
    (List.filterMap (fun el =>
        match el with
        | SyntaxElement.Token t => some t
        | SyntaxElement.Node _ => none)
      (opts.filterMap (fun o => o.map SyntaxElement.Token))) = opts.filterMap id
  | [] => rfl
  | none :: opts => tokens_of_optTokens opts
  | some t :: opts => congrArg (t :: ·) (tokens_of_optTokens opts)

/-- The token children of a node of the shape produced by `parseVarDecl`:
the leading token followed by whatever optional fields matched. -/
theorem node_tokens_cons_opt (k : SyntaxKind) (t : TokenData)
    (opts : List (Option TokenData)) :
    (SyntaxNodeData.mk k (SyntaxElement.Token t ::
        opts.filterMap (fun o => o.map SyntaxElement.Token))).tokens =
      t :: opts.filterMap id := by
  exact congrArg (t :: ·) (tokens_of_optTokens opts)

/-- Kind shape of a parsed `VarDecl` node: the kinds of its token children
form a sublist of the expected kind sequence. -/
theorem parseVarDecl_kinds_sublist (t : TokenData) (ts : List TokenData)
    (h : t.kind = SyntaxKind.Let) :
    ((SyntaxNodeData.mk SyntaxKind.VarDecl (parseVarDecl t ts).1).tokens.map
      TokenData.kind).Sublist
      [SyntaxKind.Let, SyntaxKind.Ident, SyntaxKind.Colon, SyntaxKind.«Type»,
       SyntaxKind.Equal, SyntaxKind.StringLiteral, SyntaxKind.Semicolon] := by
  rw [show (parseVarDecl t ts).1 = SyntaxElement.Token t ::
      ([(takeKind SyntaxKind.Ident ts).1,
        (takeKind SyntaxKind.Colon (takeKind SyntaxKind.Ident ts).2).1,
        (takeKind SyntaxKind.«Type» (takeKind SyntaxKind.Colon
          (takeKind SyntaxKind.Ident ts).2).2).1,
        (takeKind SyntaxKind.Equal (takeKind SyntaxKind.«Type»
          (takeKind SyntaxKind.Colon (takeKind SyntaxKind.Ident ts).2).2).2).1,
        (takeKind SyntaxKind.StringLiteral (takeKind SyntaxKind.Equal
          (takeKind SyntaxKind.«Type» (takeKind SyntaxKind.Colon
            (takeKind SyntaxKind.Ident ts).2).2).2).2).1,
        (takeKind SyntaxKind.Semicolon (takeKind SyntaxKind.StringLiteral
          (takeKind SyntaxKind.Equal (takeKind SyntaxKind.«Type»
            (takeKind SyntaxKind.Colon (takeKind SyntaxKind.Ident ts).2).2).2).2).2).1].filterMap
        (fun o => o.map SyntaxElement.Token)) from rfl]
  rw [node_tokens_cons_opt]
  rw [List.map_cons, h]
  refine List.Sublist.cons₂ _ (filterMap_kinds_sublist ?_)
  refine List.Forall₂.cons (fun t' ht' => takeKind_fst ht') ?_
  refine List.Forall₂.cons (fun t' ht' => takeKind_fst ht') ?_
  refine List.Forall₂.cons (fun t' ht' => takeKind_fst ht') ?_
  refine List.Forall₂.cons (fun t' ht' => takeKind_fst ht') ?_
  refine List.Forall₂.cons (fun t' ht' => takeKind_fst ht') ?_
  refine List.Forall₂.cons (fun t' ht' => takeKind_fst ht') ?_
  exact List.Forall₂.nil

/-- Every element produced by the parser loop is a `VarDecl` node of the
`parseVarDecl` shape, built from a `let` token. -/
theorem parse_go_mem (n : Nat) : ∀ (ts : List TokenData) (el : SyntaxElement),
    el ∈ parse_go n ts → ∃ (t : TokenData) (rest : List TokenData),
      t.kind = SyntaxKind.Let ∧
      el = SyntaxElement.Node
        (SyntaxNodeData.mk SyntaxKind.VarDecl (parseVarDecl t rest).1) := by
  induction n with
  | zero => intro ts el h; simp [parse_go] at h
  | succ n ih =>
    intro ts el h
    match ts with
    | [] => simp [parse_go] at h
    | t :: rest =>
      simp only [parse_go] at h
      split at h
      · rcases List.mem_cons.1 h with h' | h'
        · exact ⟨t, rest, by assumption, h'⟩
        · exact ih _ el h'
      · simp at h

theorem table_lex_go_nil : ∀ n : Nat, table_lex_go n [] = []
  | 0 => rfl
  | _ + 1 => rfl

/-- A string literal opened at the cursor with no closing quote in the rest
of the input is scanned to a single `Error` token holding the collected
content, and the scan then stops. -/
theorem table_lex_unterminated (cs : List Char) (h : '"' ∉ cs) :
    table_lex ('"' :: cs) = [⟨SyntaxKind.Error, cs.asString⟩] := by
  have hsb : scanStringBody cs = (cs, false, []) := scanStringBody_no_quote cs h
  have hstep : lexStep ('"' :: cs) = some (⟨SyntaxKind.Error, cs.asString⟩, []) := by
    rw [show lexStep ('"' :: cs) =
      some (⟨if (scanStringBody cs).2.1 then SyntaxKind.StringLiteral
             else SyntaxKind.Error, (scanStringBody cs).1.asString⟩,
        (scanStringBody cs).2.2) from rfl, hsb]
    rfl
  show table_lex_go ('"' :: cs).length ('"' :: cs) = _
  rw [List.length_cons, table_lex_go_cons hstep, table_lex_go_nil]

/-! ## Claims -/

/-- C1: on input `let x: string = "hi";` the scanner does produce the kind
sequence stated in the claim, but the tree builder attaches only the `let`
keyword to the single `VarDecl` node (the whitespace token after `let`
matches none of the expected kinds and is never skipped, so it blocks every
later field), and lowering then panics on `.unwrap()` (modelled as `none`)
instead of producing the record and the serialized output. -/
theorem c1_happy_path_behavior :
    ((table_lex "let x: string = \"hi\";".toList).map TokenData.kind =
      [SyntaxKind.Let, SyntaxKind.Whitespace, SyntaxKind.Ident, SyntaxKind.Colon,
       SyntaxKind.Whitespace, SyntaxKind.«Type», SyntaxKind.Whitespace, SyntaxKind.Equal,
       SyntaxKind.Whitespace, SyntaxKind.StringLiteral, SyntaxKind.Semicolon]) ∧
    parse_tokens_to_cst (table_lex "let x: string = \"hi\";".toList) =
      SyntaxNodeData.mk SyntaxKind.Root
        [SyntaxElement.Node (SyntaxNodeData.mk SyntaxKind.VarDecl
          [SyntaxElement.Token ⟨SyntaxKind.Let, "let"⟩])] ∧
    lower_to_ast (parse_tokens_to_cst (table_lex "let x: string = \"hi\";".toList)) =
      none :=
  ⟨by decide, rfl, rfl⟩

/-- C2 counterexample: the scanner strips the delimiting quotes from a
string literal, so concatenating the token texts of `"hi"` gives `hi`, not
the original input. -/
theorem c2_counterexample :
    concatTexts (table_lex "\"hi\"".toList) ≠ "\"hi\"".toList.asString ∧
    concatTexts (table_lex "\"hi\"".toList) = "hi" := by
  constructor
  · decide
  · decide

/-- C2 amended: for every input containing no quote character, the
concatenation of the emitted token texts, in order, is exactly the input
(the quote-stripping of string-literal tokens is the only loss). -/
theorem c2_lossless_amended (cs : List Char) (h : '"' ∉ cs) :
    concatTexts (table_lex cs) = cs.asString :=
  concatTexts_go cs.length cs (Nat.le_refl _) h

/-- C2 witness: the amended losslessness at a concrete input. -/
theorem c2_lossless_witness :
    concatTexts (table_lex "let x;".toList) = "let x;".toList.asString :=
  c2_lossless_amended "let x;".toList (by decide)

/-- C3: a `VarDecl` missing its identifier (input `let;`) makes
`lower_to_ast` panic (`none`), instead of failing that declaration with a
missing-field report; moreover a following well-formed declaration is not
processed either (no batch semantics): the whole lowering aborts. -/
theorem c3_lowering_panics :
    lower_to_ast (parse_tokens_to_cst (table_lex "let;".toList)) = none ∧
    lower_to_ast (SyntaxNodeData.mk SyntaxKind.Root
      [SyntaxElement.Node (SyntaxNodeData.mk SyntaxKind.VarDecl
        [SyntaxElement.Token ⟨SyntaxKind.Let, "let"⟩,
         SyntaxElement.Token ⟨SyntaxKind.Semicolon, ";"⟩]),
       SyntaxElement.Node (SyntaxNodeData.mk SyntaxKind.VarDecl
        [SyntaxElement.Token ⟨SyntaxKind.Let, "let"⟩,
         SyntaxElement.Token ⟨SyntaxKind.Ident, "x"⟩,
         SyntaxElement.Token ⟨SyntaxKind.«Type», "string"⟩,
         SyntaxElement.Token ⟨SyntaxKind.StringLiteral, "hi"⟩])]) = none :=
  ⟨rfl, rfl⟩

/-- C4 counterexample: the scanner `table_lex` does not consult the
operator trie; on input `==` it emits two `=`-kind tokens, not one
`==`-kind token. -/
theorem c4_counterexample :
    table_lex "==".toList = [⟨SyntaxKind.Equal, "="⟩, ⟨SyntaxKind.Equal, "="⟩] ∧
    table_lex "==".toList ≠ [⟨SyntaxKind.EqualEqual, "=="⟩] := by
  constructor
  · decide
  · decide

/-- C4 amended: the trie matcher `lex_operator`, with `=` and `==` both
registered by `build_operator_trie`, does return a single `==`-kind token
consuming both characters of input `==` (greedy longest match); but the
scanner `table_lex` never calls it and scans `==` as two `=`-kind tokens. -/
theorem c4_longest_match_amended :
    lex_operator "==".toList build_operator_trie =
      (some ⟨SyntaxKind.EqualEqual, "=="⟩, []) ∧
    table_lex "==".toList = [⟨SyntaxKind.Equal, "="⟩, ⟨SyntaxKind.Equal, "="⟩] := by
  constructor
  · decide
  · decide

/-- C5: on input `let a: string = "1"; let b: string = "2";` the tree
builder produces one `VarDecl` child (containing only the first `let`
token), not two: the whitespace token after `let` blocks all fields, the
declaration ends without consuming up to the second `let`, and the loop
stops at the following whitespace token.  Lowering then panics (`none`), so
nothing is serialized. -/
theorem c5_multiple_decls_behavior :
    parse_tokens_to_cst
        (table_lex "let a: string = \"1\"; let b: string = \"2\";".toList) =
      SyntaxNodeData.mk SyntaxKind.Root
        [SyntaxElement.Node (SyntaxNodeData.mk SyntaxKind.VarDecl
          [SyntaxElement.Token ⟨SyntaxKind.Let, "let"⟩])] ∧
    lower_to_ast (parse_tokens_to_cst
        (table_lex "let a: string = \"1\"; let b: string = \"2\";".toList)) =
      none :=
  ⟨rfl, rfl⟩

/-- C6: whenever the scanner reaches an opening quote and no closing quote
follows in the remaining input, it emits a single `Error`-kind token whose
text is exactly the content collected after the opening quote, and
terminates; concretely, `let x: string = "oops` produces exactly one
`Error` token, with text `oops`. -/
theorem c6_unterminated_string :
    (∀ cs : List Char, '"' ∉ cs →
      table_lex ('"' :: cs) = [⟨SyntaxKind.Error, cs.asString⟩]) ∧
    (table_lex "let x: string = \"oops".toList).filter
        (fun t => t.kind == SyntaxKind.Error) =
      [⟨SyntaxKind.Error, "oops"⟩] := by
  constructor
  · exact table_lex_unterminated
  · decide

/-- C6 witness: the universal part of the claim at a concrete input. -/
theorem c6_unterminated_string_witness :
    table_lex ('"' :: "oops".toList) = [⟨SyntaxKind.Error, "oops"⟩] :=
  c6_unterminated_string.1 "oops".toList (by decide)

/-- C7: the scanner is a total function (never panics, always terminates);
on nonempty input it emits at least one token; the consumed segments are
nonempty, in one-to-one correspondence with the emitted tokens, and
concatenate back to the input, so every input character belongs to exactly
one token. -/
theorem c7_scanner_total (cs : List Char) :
    (cs ≠ [] → 1 ≤ (table_lex cs).length) ∧
    (table_lex_segs cs).flatten = cs ∧
    (table_lex_segs cs).length = (table_lex cs).length ∧
    ∀ seg ∈ table_lex_segs cs, seg ≠ [] := by
  rcases table_lex_segs_go_spec cs.length cs (Nat.le_refl _) with ⟨h1, h2, h3⟩
  refine ⟨?_, h1, h2, h3⟩
  intro hne
  match cs, hne with
  | c :: cs', _ =>
    rcases lexStep_cases c cs' with ⟨t, rest, pre, hstep, -, -, -⟩
    show 1 ≤ (table_lex_go (c :: cs').length (c :: cs')).length
    rw [List.length_cons, table_lex_go_cons hstep]
    simp

/-- C7 witness: the scanner totality facts at a concrete input. -/
theorem c7_scanner_total_witness :
    1 ≤ (table_lex "a".toList).length ∧
    (table_lex_segs "a".toList).flatten = "a".toList ∧
    (table_lex_segs "a".toList).length = (table_lex "a".toList).length ∧
    "a".toList ≠ [] :=
  ⟨(c7_scanner_total "a".toList).1 (by decide),
   (c7_scanner_total "a".toList).2.1,
   (c7_scanner_total "a".toList).2.2.1,
   by decide⟩

/-- C8: for every token stream, the tree builder returns a `Root` node all
of whose children are `VarDecl` nodes, and the kinds of the token children
of each `VarDecl` form a sublist (subset, in order) of keyword, identifier,
colon, type, equals, string-literal, semicolon. -/
theorem c8_cst_shape (ts : List TokenData) :
    (parse_tokens_to_cst ts).kind = SyntaxKind.Root ∧
    ∀ el ∈ (parse_tokens_to_cst ts).children,
      ∃ (t : TokenData) (rest : List TokenData),
        el = SyntaxElement.Node
          (SyntaxNodeData.mk SyntaxKind.VarDecl (parseVarDecl t rest).1) ∧
        ((SyntaxNodeData.mk SyntaxKind.VarDecl
            (parseVarDecl t rest).1).tokens.map TokenData.kind).Sublist
          [SyntaxKind.Let, SyntaxKind.Ident, SyntaxKind.Colon, SyntaxKind.«Type»,
           SyntaxKind.Equal, SyntaxKind.StringLiteral, SyntaxKind.Semicolon] := by
  refine ⟨rfl, ?_⟩
  intro el hel
  rcases parse_go_mem ts.length ts el hel with ⟨t, rest, hkind, heq⟩
  exact ⟨t, rest, heq, parseVarDecl_kinds_sublist t rest hkind⟩

/-- C8 witness: the tree-shape invariant at a concrete token stream. -/
theorem c8_cst_shape_witness :
    (parse_tokens_to_cst [⟨SyntaxKind.Let, "let"⟩]).kind = SyntaxKind.Root ∧
    ∃ (t : TokenData) (rest : List TokenData),
      SyntaxElement.Node (SyntaxNodeData.mk SyntaxKind.VarDecl
          (parseVarDecl ⟨SyntaxKind.Let, "let"⟩ []).1) =
        SyntaxElement.Node
          (SyntaxNodeData.mk SyntaxKind.VarDecl (parseVarDecl t rest).1) ∧
      ((SyntaxNodeData.mk SyntaxKind.VarDecl
          (parseVarDecl t rest).1).tokens.map TokenData.kind).Sublist
        [SyntaxKind.Let, SyntaxKind.Ident, SyntaxKind.Colon, SyntaxKind.«Type»,
         SyntaxKind.Equal, SyntaxKind.StringLiteral, SyntaxKind.Semicolon] :=
  ⟨(c8_cst_shape [⟨SyntaxKind.Let, "let"⟩]).1,
   (c8_cst_shape [⟨SyntaxKind.Let, "let"⟩]).2 _ (List.mem_cons_self _ _)⟩

/-- C9: the serializer output is the `{` line, then exactly one line per
record of the form two spaces, quoted name, colon, quoted value, and a
terminating comma (after every record, the last included), then `}`;
records appear in list order, and every record's line occurs in the output
(records are never dropped; `analyze` only reports diagnostics and does not
affect `compile`). -/
theorem c9_serializer (decls : List VarDecl) :
    compile decls = "\x7b\n" ++ entryLines decls ++ "\x7d" ∧
    ∀ d ∈ decls, (entryLine d).data <:+: (compile decls).data := by
  refine ⟨compile_eq decls, ?_⟩
  intro d hd
  rcases List.append_of_mem hd with ⟨l₁, l₂, hsplit⟩
  refine ⟨("\x7b\n" ++ entryLines l₁).data, (entryLines l₂ ++ "\x7d").data, ?_⟩
  rw [compile_eq decls, hsplit, entryLines_append]
  show _ = ("\x7b\n" ++ (entryLines l₁ ++ entryLines (d :: l₂)) ++ "\x7d").data
  show _ = ("\x7b\n" ++ (entryLines l₁ ++ (entryLine d ++ entryLines l₂)) ++ "\x7d").data
  simp [string_data_append, List.append_assoc]

/-- C9 witness: serialization of a batch containing an unsupported type and
an empty value; both records are still serialized, in order. -/
theorem c9_serializer_witness :
    compile [⟨"a", "number", "1"⟩, ⟨"b", "string", ""⟩] =
      "\x7b\n" ++ entryLines [⟨"a", "number", "1"⟩, ⟨"b", "string", ""⟩] ++ "\x7d" ∧
    (entryLine ⟨"a", "number", "1"⟩).data <:+:
      (compile [⟨"a", "number", "1"⟩, ⟨"b", "string", ""⟩]).data :=
  ⟨(c9_serializer [⟨"a", "number", "1"⟩, ⟨"b", "string", ""⟩]).1,
   (c9_serializer [⟨"a", "number", "1"⟩, ⟨"b", "string", ""⟩]).2
     ⟨"a", "number", "1"⟩ (List.mem_cons_self _ _)⟩

/-- C10 counterexample: the two scanners disagree on a newline (the old
scanner classifies it as whitespace with hard-coded text a space; the
table-driven one emits a `NewLine` token) and on an unterminated string
literal (`StringLiteral` kind versus `Error` kind). -/
theorem c10_counterexample :
    lex "\n".toList ≠ table_lex "\n".toList ∧
    lex "\"x".toList ≠ table_lex "\"x".toList := by
  constructor
  · decide
  · decide

/-- C10 amended: the table-driven scanner is a drop-in replacement for the
old one only away from the two divergences: on every input containing no
whitespace character and in which every string literal is closed (an even
number of quote characters), the two scanners produce identical token
streams. -/
theorem c10_equiv_amended (cs : List Char)
    (hws : ∀ x ∈ cs, isRustWhitespace x = false)
    (hq : cs.count '"' % 2 = 0) :
    lex cs = table_lex cs :=
  agree_go cs.length cs (Nat.le_refl _) hws hq

/-- C10 witness: agreement at a concrete input with a closed string
literal. -/
theorem c10_equiv_witness : lex "x=\"a\";".toList = table_lex "x=\"a\";".toList :=
  c10_equiv_amended "x=\"a\";".toList (by decide) (by decide)
